import Mathlib

/-!
Verification of the event-date extraction and caching subsystem of the stock
dashboard repository.

The Python sources embedded here are:
  - app/utils/normalize.py   (_normalize_code)
  - app/utils/date_parse.py  (_parse_date_text, _parse_quarter_value,
    _parse_rights_value, _extract_event_dates_new_format,
    _extract_event_dates_legacy, _extract_date_after_label,
    _extract_event_dates)
  - app/storage/events_cache.py (get_cached_events, set_cached_events)
  - app/services/events_openai.py (get_events_by_openai,
    get_events_by_openai_batch, _fetch_via_ai, get_events_info,
    fetch_events_info_for_codes and their helpers)

Strings are modelled as lists of characters.  Python regular expressions in
date_parse.py are embedded as explicit backtracking matchers that follow the
leftmost-match / greedy / lazy semantics of the re module; where a pattern is
deterministic this is derived and noted at the definition.  The wall clock,
the on-disk JSON cache table and the OpenAI client are modelled as explicit
state (an integer UTC time in seconds, a map from normalized code to entry,
and an oracle returning either a transport error or a response), and each
external chat-completion request is recorded in a call log.
-/

set_option maxRecDepth 20000

abbrev Str := List Char

def str (s : String) : Str := s.data

/-- Whitespace as recognized by Python str.strip and the regex class \s:
ASCII whitespace plus the Unicode spaces that occur in this domain
(NEL, NBSP and the ideographic space). -/
def pyIsSpace (c : Char) : Bool :=
  c = ' ' || c = '\t' || c = '\n' || c = '\r' || c = '\x0b' || c = '\x0c' ||
  c = '\x85' || c = '\xa0' || c = '　'

def pyLStrip (l : Str) : Str := l.dropWhile pyIsSpace

def pyRStrip (l : Str) : Str := (l.reverse.dropWhile pyIsSpace).reverse

/-- Python str.strip(). -/
def pyStrip (l : Str) : Str := pyRStrip (pyLStrip l)

def pySplitAux (c : Char) : Str → Str → List Str
  | [], acc => [acc.reverse]
  | x :: xs, acc =>
    if x = c then acc.reverse :: pySplitAux c xs [] else pySplitAux c xs (x :: acc)

/-- Python str.split(sep) for a one-character separator. -/
def pySplit (c : Char) (l : Str) : List Str := pySplitAux c l []

/-- The list comprehension [p.strip() for p in l.split(sep) if p.strip()]. -/
def cleanParts (c : Char) (l : Str) : List Str :=
  ((pySplit c l).map pyStrip).filter (fun p => p ≠ [])

/-- Python str.isdigit restricted to the digit characters that occur in this
domain: ASCII digits and full-width digits. -/
def pyIsDigitChar (c : Char) : Bool :=
  (48 ≤ c.toNat && c.toNat ≤ 57) || (0xFF10 ≤ c.toNat && c.toNat ≤ 0xFF19)

/-- Python str.zfill(w): left-pad with zeros to width w, keeping a leading
sign character in front of the padding. -/
def zfill (w : Nat) (l : Str) : Str :=
  if w ≤ l.length then l
  else
    match l with
    | c :: rest =>
      if c = '+' || c = '-' then c :: (List.replicate (w - l.length) '0' ++ rest)
      else List.replicate (w - l.length) '0' ++ l
    | [] => List.replicate w '0'

/-- app/utils/normalize.py: strip, then zero-pad purely numeric codes to
4 digits. -/
def _normalize_code (code : Str) : Str :=
  let normalized := pyStrip code
  if normalized = [] then []
  else if normalized.all pyIsDigitChar then zfill 4 normalized
  else normalized

/-! ### The date-pattern matchers of _parse_date_text

The three regex searches of _parse_date_text are embedded as backtracking
matchers.  tryWs / tryWs1 / tryDigits12 try the alternatives of a greedy
quantifier in the order the re module does (longest first), passing the rest
of the input to a continuation; a search tries every start position from the
left and keeps the first successful match, exactly like re.search. -/

/-- Length of the maximal whitespace prefix. -/
def wsRun : Str → Nat
  | [] => 0
  | c :: rest => if pyIsSpace c then wsRun rest + 1 else 0

def tryWsCounts (l : Str) (k : Str → Option α) : Nat → Option α
  | 0 => k l
  | n + 1 =>
    match k (l.drop (n + 1)) with
    | some r => some r
    | none => tryWsCounts l k n

/-- Greedy \s* : try consuming the longest whitespace prefix first. -/
def tryWs (l : Str) (k : Str → Option α) : Option α := tryWsCounts l k (wsRun l)

def tryWs1Counts (l : Str) (k : Str → Option α) : Nat → Option α
  | 0 => none
  | n + 1 =>
    match k (l.drop (n + 1)) with
    | some r => some r
    | none => tryWs1Counts l k n

/-- Greedy \s+ : like \s* but at least one whitespace character. -/
def tryWs1 (l : Str) (k : Str → Option α) : Option α := tryWs1Counts l k (wsRun l)

/-- Greedy \d{1,2} with capture: try two digits first, then one. -/
def tryDigits12 (l : Str) (k : Str → Str → Option α) : Option α :=
  match l with
  | [] => none
  | [c1] => if c1.isDigit then k [c1] [] else none
  | c1 :: c2 :: rest =>
    if c1.isDigit then
      if c2.isDigit then
        match k [c1, c2] (rest) with
        | some r => some r
        | none => k [c1] (c2 :: rest)
      else k [c1] (c2 :: rest)
    else none

/-- \d{n} with capture: exactly n digits, no backtracking. -/
def takeDigitsExact : Nat → Str → Option (Str × Str)
  | 0, l => some ([], l)
  | _ + 1, [] => none
  | n + 1, c :: rest =>
    if c.isDigit then (takeDigitsExact n rest).map (fun p => (c :: p.1, p.2))
    else none

/-- A single character matching the class p. -/
def trySep (p : Char → Bool) (l : Str) (k : Str → Option α) : Option α :=
  match l with
  | [] => none
  | c :: rest => if p c then k rest else none

/-- Anchored match of (\d{4})\s*SEP\s*(\d{1,2})\s*SEP\s*(\d{1,2}) where SEP is
a single-character pattern.  In the source the separator is interpolated
verbatim into the regex, so for the separator "." the pattern character is
the regex wildcard (any character but a newline). -/
def matchSepAt (p : Char → Bool) (l : Str) : Option (Str × Str × Str) :=
  match takeDigitsExact 4 l with
  | none => none
  | some (y, l1) =>
    tryWs l1 (fun l2 => trySep p l2 (fun l3 =>
      tryWs l3 (fun l4 => tryDigits12 l4 (fun mo l5 =>
        tryWs l5 (fun l6 => trySep p l6 (fun l7 =>
          tryWs l7 (fun l8 => tryDigits12 l8 (fun d _ => some (y, mo, d)))))))))

/-- Anchored match of (\d{4})\s+(\d{1,2})\s+(\d{1,2}). -/
def matchWsAt (l : Str) : Option (Str × Str × Str) :=
  match takeDigitsExact 4 l with
  | none => none
  | some (y, l1) =>
    tryWs1 l1 (fun l2 => tryDigits12 l2 (fun mo l3 =>
      tryWs1 l3 (fun l4 => tryDigits12 l4 (fun d _ => some (y, mo, d)))))

/-- Anchored match of (\d{4})(\d{2})(\d{2}). -/
def matchCompactAt (l : Str) : Option (Str × Str × Str) :=
  match takeDigitsExact 4 l with
  | none => none
  | some (y, l1) =>
    match takeDigitsExact 2 l1 with
    | none => none
    | some (mo, l2) =>
      match takeDigitsExact 2 l2 with
      | none => none
      | some (d, _) => some (y, mo, d)

/-- re.search: try the anchored matcher at each start position from the left
and return the first success. -/
def searchAux (m : Str → Option β) : Str → Option β
  | [] => m []
  | l@(_ :: rest) =>
    match m l with
    | some r => some r
    | none => searchAux m rest

def natOfDigits (l : Str) : Nat :=
  l.foldl (fun n c => n * 10 + (c.toNat - 48)) 0

def isLeapYear (y : Nat) : Bool := (y % 4 = 0 && y % 100 ≠ 0) || y % 400 = 0

def daysInMonth (y m : Nat) : Nat :=
  if m = 2 then (if isLeapYear y then 29 else 28)
  else if m = 4 || m = 6 || m = 9 || m = 11 then 30
  else 31

/-- Validity of datetime(year, month, day): the proleptic Gregorian calendar
with MINYEAR = 1 and MAXYEAR = 9999. -/
def isValidDate (y m d : Nat) : Bool :=
  1 ≤ y && y ≤ 9999 && 1 ≤ m && m ≤ 12 && 1 ≤ d && d ≤ daysInMonth y m

def digitChar (n : Nat) : Char := Char.ofNat (48 + n)

/-- Decimal digits of n for n ≤ 9999, unpadded (as %Y renders the year on the
target platform). -/
def natDecimal (n : Nat) : Str :=
  if n < 10 then [digitChar n]
  else if n < 100 then [digitChar (n / 10), digitChar (n % 10)]
  else if n < 1000 then [digitChar (n / 100), digitChar (n / 10 % 10), digitChar (n % 10)]
  else [digitChar (n / 1000 % 10), digitChar (n / 100 % 10), digitChar (n / 10 % 10), digitChar (n % 10)]

def pad2 (n : Nat) : Str := [digitChar (n / 10 % 10), digitChar (n % 10)]

/-- _match_to_iso: construct datetime(int(y), int(m), int(d)) and render it as
%Y-%m-%d, or None when the date is not calendrically valid. -/
def matchToIso (g : Str × Str × Str) : Option Str :=
  let y := natOfDigits g.1
  let mo := natOfDigits g.2.1
  let d := natOfDigits g.2.2
  if isValidDate y mo d then
    some (natDecimal y ++ ['-'] ++ pad2 mo ++ ['-'] ++ pad2 d)
  else none

/-- The translate table of _parse_date_text: full-width digits and separators
to half-width. -/
def translateChar (c : Char) : Char :=
  if c = '０' then '0' else if c = '１' then '1' else if c = '２' then '2'
  else if c = '３' then '3' else if c = '４' then '4' else if c = '５' then '5'
  else if c = '６' then '6' else if c = '７' then '7' else if c = '８' then '8'
  else if c = '９' then '9' else if c = '／' then '/' else if c = '－' then '-'
  else if c = '―' then '-' else if c = 'ー' then '-' else if c = '．' then '.'
  else c

def yearMonthChar (c : Char) : Char :=
  if c = '年' then '/' else if c = '月' then '/' else c

/-- app/utils/date_parse.py _parse_date_text: strip, normalize full-width
characters, replace 年/月 by "/" and drop 日, then try in order the
separator patterns for "-", "/" and "." (the "." being the interpolated
regex wildcard), the whitespace pattern, and the compact yyyymmdd pattern.
A pattern whose first match is not a valid date falls through to the next
pattern, exactly as in the source. -/
def _parse_date_text (text : Str) : Option Str :=
  let t := pyStrip text
  if t = [] then none
  else
    let t := ((t.map translateChar).map yearMonthChar).filter (fun c => c ≠ '日')
    match (searchAux (matchSepAt (fun c => c = '-')) t).bind matchToIso with
    | some r => some r
    | none =>
      match (searchAux (matchSepAt (fun c => c = '/')) t).bind matchToIso with
      | some r => some r
      | none =>
        match (searchAux (matchSepAt (fun c => c ≠ '\n')) t).bind matchToIso with
        | some r => some r
        | none =>
          match (searchAux matchWsAt t).bind matchToIso with
          | some r => some r
          | none => (searchAux matchCompactAt t).bind matchToIso

/-! ### Quarter and rights value parsers

The patterns of _parse_quarter_value and _parse_rights_value are anchored
(^...$) and applied to a stripped value.  Their date group [^（(]+? cannot
contain an opening parenthesis, so the parenthesis consumed by [（(] is
necessarily the first one in the value and, the value being stripped, the
captured-then-stripped date group equals the stripped prefix before that
parenthesis (nonempty because the group needs at least one character).
Likewise the URL body [^）)]+ cannot contain a closing parenthesis, so it
runs exactly to the first closing parenthesis after the scheme, after which
\s*$ requires the rest to be whitespace.  Each literal (予定/前回, ｜,
https?://) starts with a non-whitespace character, so every \s* before a
literal is deterministic.  This derivation makes the matchers below exact
embeddings of the regexes. -/

def isOpenParen (c : Char) : Bool := c = '（' || c = '('

def isCloseParen (c : Char) : Bool := c = '）' || c = ')'

def skipWs (l : Str) : Str := l.dropWhile pyIsSpace

/-- Split at the first character satisfying p: (prefix, suffix after it). -/
def splitAtFirst (p : Char → Bool) : Str → Option (Str × Str)
  | [] => none
  | c :: rest =>
    if p c then some ([], rest)
    else (splitAtFirst p rest).map (fun q => (c :: q.1, q.2))

/-- Literal prefix: consume lit or fail. -/
def stripLit (lit : Str) (l : Str) : Option Str :=
  if lit.isPrefixOf l then some (l.drop lit.length) else none

/-- https?:// with the greedy optional s (the two cases are disjoint on the
fourth character, so order does not matter); returns (consumed, rest). -/
def stripScheme (l : Str) : Option (Str × Str) :=
  match stripLit (str ("https://")) l with
  | some r => some (str ("https://"), r)
  | none =>
    match stripLit (str ("http://")) l with
    | some r => some (str ("http://"), r)
    | none => none

/-- The alternation (予定|前回), tried left to right. -/
def matchKind (l : Str) : Option (Str × Str) :=
  match stripLit (str ("予定")) l with
  | some r => some (str ("予定"), r)
  | none =>
    match stripLit (str ("前回")) l with
    | some r => some (str ("前回"), r)
    | none => none

/-- (https?://[^）)]+)\s*[）)]: the scheme, a nonempty body running to the
first closing parenthesis, returning (url group, rest after the
parenthesis).  The trailing \s* of the group is part of the greedy body and
is removed by the caller's strip. -/
def parseUrlClose (l : Str) : Option (Str × Str) :=
  match stripScheme l with
  | none => none
  | some (scheme, r) =>
    match splitAtFirst isCloseParen r with
    | none => none
    | some (body, after) =>
      if body = [] then none else some (scheme ++ body, after)

structure QuarterEvent where
  date : Str
  date_text : Str
  kind : Str
  source_url : Str
  display : Str
deriving DecidableEq

structure RightsEvent where
  date : Str
  date_text : Str
  source_url : Option Str
  display : Str
deriving DecidableEq

/-- date_parse.py _parse_quarter_value: match
^\s*(?P<date>[^（(]+?)\s*[（(]\s*(?P<kind>予定|前回)\s*｜\s*(?P<url>https?://[^）)]+)\s*[）)]\s*$
against the stripped value and build the event dict. -/
def _parse_quarter_value (value : Str) : Option QuarterEvent :=
  let s := pyStrip value
  match splitAtFirst isOpenParen s with
  | none => none
  | some (pre, rest) =>
    if pre = [] then none
    else
      match matchKind (skipWs rest) with
      | none => none
      | some (kind, r2) =>
        match skipWs r2 with
        | [] => none
        | c :: r4 =>
          if c = '｜' then
            match parseUrlClose (skipWs r4) with
            | none => none
            | some (url, after) =>
              if after.all pyIsSpace then
                let date_text := pyStrip pre
                let u := pyStrip url
                let iso :=
                  match _parse_date_text date_text with
                  | some i => i
                  | none => date_text
                some ⟨iso, date_text, kind, u,
                      date_text ++ ['（'] ++ kind ++ str (", ") ++ u ++ ['）']⟩
              else none
          else none

/-- date_parse.py _parse_rights_value: try the bare URL grammar
^\s*([^（(]+?)\s*[（(]\s*(https?://[^）)]+)\s*[）)]\s*$ on the stripped value,
otherwise keep the whole value as plain text with a null URL. -/
def _parse_rights_value (value : Str) : RightsEvent :=
  let s := pyStrip value
  let urlMatch : Option (Str × Str) :=
    match splitAtFirst isOpenParen s with
    | none => none
    | some (pre, rest) =>
      if pre = [] then none
      else
        match parseUrlClose (skipWs rest) with
        | none => none
        | some (url, after) =>
          if after.all pyIsSpace then some (pyStrip pre, pyStrip url) else none
  match urlMatch with
  | some (dt, u) =>
    let iso :=
      match _parse_date_text dt with
      | some i => i
      | none => dt
    ⟨iso, dt, some u, s⟩
  | none =>
    let iso :=
      match _parse_date_text s with
      | some i => i
      | none => s
    ⟨iso, s, none, s⟩

structure ExtractResult where
  quarter_dates : List (Str × Str)
  quarter_events : List (Str × QuarterEvent)
  rights_date : Option Str
  rights_event : Option RightsEvent
deriving DecidableEq

def QUARTER_LABELS : List Str :=
  [str ("第1四半期"), str ("第2四半期"), str ("第3四半期"), str ("通期")]

def pyLower (l : Str) : Str := l.map Char.toLower

/-- date_parse.py _extract_event_dates_new_format: at least five nonempty
comma parts; the first four must each match the quarter grammar, the fifth
is the rights value or the 情報未取得 sentinel. -/
def _extract_event_dates_new_format (content : Str) : Option ExtractResult :=
  match cleanParts ',' content with
  | p1 :: p2 :: p3 :: p4 :: p5 :: _ =>
    match _parse_quarter_value p1 with
    | none => none
    | some e1 =>
    match _parse_quarter_value p2 with
    | none => none
    | some e2 =>
    match _parse_quarter_value p3 with
    | none => none
    | some e3 =>
    match _parse_quarter_value p4 with
    | none => none
    | some e4 =>
      let qe := [(str ("第1四半期"), e1), (str ("第2四半期"), e2),
                 (str ("第3四半期"), e3), (str ("通期"), e4)]
      let qd := qe.map (fun p => (p.1, p.2.display))
      if pyLower p5 = str ("情報未取得") then some ⟨qd, qe, none, none⟩
      else
        let re := _parse_rights_value p5
        some ⟨qd, qe, some re.date, some re⟩
  | _ => none

/-! ### The legacy extraction path -/

/-- Line-break characters recognized by Python str.splitlines. -/
def isLineBreak (c : Char) : Bool :=
  c = '\n' || c = '\r' || c = '\x0b' || c = '\x0c' ||
  c = '\x1c' || c = '\x1d' || c = '\x1e' || c = '\x85' ||
  c = '\u2028' || c = '\u2029'

def splitLinesAux : Str → Str → List Str
  | [], acc => if acc = [] then [] else [acc.reverse]
  | '\r' :: '\n' :: rest, acc => acc.reverse :: splitLinesAux rest []
  | c :: rest, acc =>
    if isLineBreak c then acc.reverse :: splitLinesAux rest []
    else splitLinesAux rest (c :: acc)

/-- Python str.splitlines (no trailing empty line for a trailing break). -/
def splitLines (l : Str) : List Str := splitLinesAux l []

/-- Remainder after the first occurrence of needle as a contiguous
subsequence, scanning from the left. -/
def findSub (needle : Str) : Str → Option Str
  | [] => if needle = [] then some [] else none
  | l@(_ :: rest) =>
    if needle.isPrefixOf l then some (l.drop needle.length)
    else findSub needle rest

/-- The regex label\s*(?:[：:]\s*)?(.*) searched in one (stripped) line:
the leftmost occurrence of the literal label, then greedy whitespace, then
an optional colon with trailing whitespace, then the rest of the line as
group 1.  (re.IGNORECASE has no effect: the labels contain no cased ASCII.)
The optional group is greedy and (.*) accepts anything, so the match is
deterministic. -/
def afterLabel (label : Str) (line : Str) : Option Str :=
  match findSub label line with
  | none => none
  | some rest =>
    match skipWs rest with
    | [] => some []
    | c :: r2 => if c = '：' || c = ':' then some (skipWs r2) else some (c :: r2)

/-- date_parse.py _extract_date_after_label, as a recursion over the line
list: for the first line whose stripped form contains the label, parse the
stripped remainder; if that fails, parse the (raw) following line; if that
also fails, keep scanning subsequent lines. -/
def _extract_date_after_label_aux (label : Str) : List Str → Option Str
  | [] => none
  | line :: rest =>
    let ls := pyStrip line
    if ls = [] then _extract_date_after_label_aux label rest
    else
      match afterLabel label ls with
      | none => _extract_date_after_label_aux label rest
      | some remTail =>
        let rem := pyStrip remTail
        match (if rem ≠ [] then _parse_date_text rem else none) with
        | some d => some d
        | none =>
          match rest with
          | next :: _ =>
            match _parse_date_text next with
            | some d => some d
            | none => _extract_date_after_label_aux label rest
          | [] => none

def _extract_date_after_label (content : Str) (label : Str) : Option Str :=
  _extract_date_after_label_aux label (splitLines content)

/-- The tail \s*[:：]?\s*(\d{4}-\d{2}-\d{2}) of the rights rescue regex,
anchored after an occurrence of the label.  Fixed-width digit groups and
single literals make it deterministic (taking the optional colon can never
turn a failure into a success, as a colon is neither whitespace nor a
digit). -/
def rescueDateAfter (l : Str) : Option Str :=
  let r :=
    match skipWs l with
    | c :: r2 => if c = ':' || c = '：' then skipWs r2 else c :: r2
    | [] => []
  match takeDigitsExact 4 r with
  | none => none
  | some (y, r1) =>
    match r1 with
    | c :: r2 =>
      if c = '-' then
        match takeDigitsExact 2 r2 with
        | none => none
        | some (mo, r3) =>
          match r3 with
          | c2 :: r4 =>
            if c2 = '-' then
              (takeDigitsExact 2 r4).map (fun p => y ++ ['-'] ++ mo ++ ['-'] ++ p.1)
            else none
          | [] => none
      else none
    | [] => none

/-- re.search(権利付き最終日\s*[:：]?\s*(\d{4}-\d{2}-\d{2}), content): the
first occurrence of the label whose tail matches wins. -/
def rescueRightsAux : Str → Option Str
  | [] => none
  | l@(_ :: rest) =>
    if (str ("権利付き最終日")).isPrefixOf l then
      match rescueDateAfter (l.drop (str ("権利付き最終日")).length) with
      | some d => some d
      | none => rescueRightsAux rest
    else rescueRightsAux rest

/-! ### A JSON reader for the json.loads fallback

json.loads is the Python standard library; the reader below implements the
JSON grammar it accepts (strict strings, RFC numbers plus the NaN/Infinity
extensions) with a fuel argument bounding the recursion by the input length.
The legacy extractor only consumes objects whose quarter_dates value is an
object of strings (or absent/null) and whose rights_date is a string or
absent/null; any other successfully parsed shape is treated here as a
failure of the JSON branch, a simplification of the source's unchecked
dictionary access that no other code path observes. -/

inductive JVal where
  | jnull
  | jbool (b : Bool)
  | jnum (lexeme : Str)
  | jstr (s : Str)
  | jarr (xs : List JVal)
  | jobj (kvs : List (Str × JVal))

inductive JRes where
  | v (x : JVal)
  | ms (xs : List (Str × JVal))
  | its (xs : List JVal)

inductive JTask where
  | val
  | members (first : Bool)
  | items (first : Bool)

def jsonWs (l : Str) : Str :=
  l.dropWhile (fun c => c = ' ' || c = '\t' || c = '\n' || c = '\r')

def isHexDigit (c : Char) : Bool :=
  c.isDigit || ('a' ≤ c && c ≤ 'f') || ('A' ≤ c && c ≤ 'F')

def hexVal (c : Char) : Nat :=
  if c.isDigit then c.toNat - 48
  else if 'a' ≤ c && c ≤ 'f' then c.toNat - 87
  else c.toNat - 55

/-- A JSON string body after the opening quote (strict: raw control
characters are rejected); \uXXXX escapes are taken as single scalar values
(surrogates are rejected, a simplification). -/
def parseJStr : Nat → Str → Option (Str × Str)
  | 0, _ => none
  | fuel + 1, l =>
    match l with
    | [] => none
    | c :: rest =>
      if c = '"' then some ([], rest)
      else if c = '\\' then
        match rest with
        | [] => none
        | e :: rest2 =>
          let esc : Option (Char × Str) :=
            if e = '"' then some ('"', rest2)
            else if e = '\\' then some ('\\', rest2)
            else if e = '/' then some ('/', rest2)
            else if e = 'b' then some ('\x08', rest2)
            else if e = 'f' then some ('\x0c', rest2)
            else if e = 'n' then some ('\n', rest2)
            else if e = 'r' then some ('\r', rest2)
            else if e = 't' then some ('\t', rest2)
            else if e = 'u' then
              match rest2 with
              | h1 :: h2 :: h3 :: h4 :: rest3 =>
                if isHexDigit h1 && isHexDigit h2 && isHexDigit h3 && isHexDigit h4 then
                  let n := ((hexVal h1 * 16 + hexVal h2) * 16 + hexVal h3) * 16 + hexVal h4
                  if 0xD800 ≤ n && n ≤ 0xDFFF then none
                  else some (Char.ofNat n, rest3)
                else none
              | _ => none
            else none
          match esc with
          | none => none
          | some (ch, rest3) => (parseJStr fuel rest3).map (fun p => (ch :: p.1, p.2))
      else if c.toNat < 0x20 then none
      else (parseJStr fuel rest).map (fun p => (c :: p.1, p.2))

def takeDigitRun : Str → Str × Str
  | [] => ([], [])
  | c :: rest =>
    if c.isDigit then
      let p := takeDigitRun rest
      (c :: p.1, p.2)
    else ([], c :: rest)

/-- A JSON number token: -?(0|[1-9][0-9]*)(\.[0-9]+)?([eE][+-]?[0-9]+)?,
plus the NaN / Infinity / -Infinity extensions accepted by json.loads. -/
def parseJNum (l : Str) : Option (Str × Str) :=
  match stripLit (str ("NaN")) l with
  | some r => some (str ("NaN"), r)
  | none =>
  match stripLit (str ("Infinity")) l with
  | some r => some (str ("Infinity"), r)
  | none =>
  match stripLit (str ("-Infinity")) l with
  | some r => some (str ("-Infinity"), r)
  | none =>
    let (sign, l1) :=
      match l with
      | '-' :: rest => ((['-'] : Str), rest)
      | _ => (([] : Str), l)
    let intPart : Option (Str × Str) :=
      match l1 with
      | '0' :: rest => some (['0'], rest)
      | c :: _ =>
        if c.isDigit then
          let p := takeDigitRun l1
          some (p.1, p.2)
        else none
      | [] => none
    match intPart with
    | none => none
    | some (ip, l2) =>
      let (fp, l3) :=
        match l2 with
        | '.' :: rest =>
          let p := takeDigitRun rest
          if p.1 = [] then (([] : Str), l2) else ('.' :: p.1, p.2)
        | _ => (([] : Str), l2)
      let (ep, l4) :=
        match l3 with
        | e :: rest =>
          if e = 'e' || e = 'E' then
            let (es, rest2) :=
              match rest with
              | s :: r => if s = '+' || s = '-' then (([s] : Str), r) else (([] : Str), rest)
              | [] => (([] : Str), rest)
            let p := takeDigitRun rest2
            if p.1 = [] then (([] : Str), l3) else (e :: es ++ p.1, p.2)
          else (([] : Str), l3)
        | [] => (([] : Str), l3)
      some (sign ++ ip ++ fp ++ ep, l4)

/-- Recursive-descent JSON reader; fuel decreases at every recursive call
and is chosen large enough for any input at the call site. -/
def parseJ : Nat → JTask → Str → Option (JRes × Str)
  | 0, _, _ => none
  | fuel + 1, JTask.val, l =>
    let l := jsonWs l
    match l with
    | [] => none
    | c :: rest =>
      if c = '{' then
        match parseJ fuel (JTask.members true) rest with
        | some (JRes.ms kvs, r) => some (JRes.v (JVal.jobj kvs), r)
        | _ => none
      else if c = '[' then
        match parseJ fuel (JTask.items true) rest with
        | some (JRes.its xs, r) => some (JRes.v (JVal.jarr xs), r)
        | _ => none
      else if c = '"' then
        match parseJStr (rest.length + 1) rest with
        | some (s, r) => some (JRes.v (JVal.jstr s), r)
        | none => none
      else
        match stripLit (str ("null")) l with
        | some r => some (JRes.v JVal.jnull, r)
        | none =>
        match stripLit (str ("true")) l with
        | some r => some (JRes.v (JVal.jbool true), r)
        | none =>
        match stripLit (str ("false")) l with
        | some r => some (JRes.v (JVal.jbool false), r)
        | none =>
          match parseJNum l with
          | some (lex, r) => some (JRes.v (JVal.jnum lex), r)
          | none => none
  | fuel + 1, JTask.members first, l =>
    let l := jsonWs l
    match l with
    | '}' :: rest => if first then some (JRes.ms [], rest) else none
    | '"' :: rest =>
      match parseJStr (rest.length + 1) rest with
      | none => none
      | some (key, r1) =>
        match jsonWs r1 with
        | ':' :: r2 =>
          match parseJ fuel JTask.val r2 with
          | some (JRes.v v, r3) =>
            (match jsonWs r3 with
             | ',' :: r4 =>
               match parseJ fuel (JTask.members false) r4 with
               | some (JRes.ms kvs, r5) => some (JRes.ms ((key, v) :: kvs), r5)
               | _ => none
             | '}' :: r4 => some (JRes.ms [(key, v)], r4)
             | _ => none)
          | _ => none
        | _ => none
    | _ => none
  | fuel + 1, JTask.items first, l =>
    let l := jsonWs l
    match l with
    | ']' :: rest => if first then some (JRes.its [], rest) else none
    | _ =>
      match parseJ fuel JTask.val l with
      | some (JRes.v v, r1) =>
        (match jsonWs r1 with
         | ',' :: r2 =>
           match parseJ fuel (JTask.items false) r2 with
           | some (JRes.its xs, r3) => some (JRes.its (v :: xs), r3)
           | _ => none
         | ']' :: r2 => some (JRes.its [v], r2)
         | _ => none)
      | _ => none

/-- json.loads: one value, optionally surrounded by whitespace, consuming
the whole input. -/
def jsonLoads (content : Str) : Option JVal :=
  match parseJ (content.length * 2 + 8) JTask.val content with
  | some (JRes.v x, rest) => if jsonWs rest = [] then some x else none
  | _ => none

/-- Last-wins lookup, as in a Python dict built from parsed members. -/
def jObjGet (kvs : List (Str × JVal)) (k : Str) : Option JVal :=
  kvs.foldl (fun acc p => if p.1 = k then some p.2 else acc) none

def jStrPairs : List (Str × JVal) → Option (List (Str × Str))
  | [] => some []
  | (k, JVal.jstr v) :: rest => (jStrPairs rest).map (fun r => (k, v) :: r)
  | _ => none

/-- The JSON branch of _extract_event_dates_legacy:
parsed.get(quarter_dates) or {} and parsed.get(rights_date), restricted to
the shapes described above. -/
def jsonQuarterRights (content : Str) : Option (List (Str × Str) × Option Str) :=
  match jsonLoads content with
  | some (JVal.jobj kvs) =>
    let qd : Option (List (Str × Str)) :=
      match jObjGet kvs (str ("quarter_dates")) with
      | none => some []
      | some JVal.jnull => some []
      | some (JVal.jobj q) => jStrPairs q
      | some _ => none
    let rd : Option (Option Str) :=
      match jObjGet kvs (str ("rights_date")) with
      | none => some none
      | some JVal.jnull => some none
      | some (JVal.jstr s) => some (some s)
      | some _ => none
    match qd, rd with
    | some qdv, some rdv => some (qdv, rdv)
    | _, _ => none
  | _ => none

/-- The label-scan fallback at the end of _extract_event_dates_legacy. -/
def labelScanResult (content : Str) : ExtractResult :=
  let qd := QUARTER_LABELS.foldl (fun acc label =>
    match _extract_date_after_label content (label ++ str ("決算")) with
    | some d => acc ++ [(label, d)]
    | none => acc) []
  let rd :=
    match _extract_date_after_label content (str ("権利付き最終日")) with
    | some d => some d
    | none => rescueRightsAux content
  ⟨qd, [], rd, none⟩

/-- date_parse.py _extract_event_dates_legacy: the raw five-part comma
format, then the JSON object fallback, then the label scan. -/
def _extract_event_dates_legacy (content : Str) : ExtractResult :=
  match cleanParts ',' content with
  | p1 :: p2 :: p3 :: p4 :: p5 :: _ =>
    ⟨[(str ("第1四半期"), p1), (str ("第2四半期"), p2),
      (str ("第3四半期"), p3), (str ("通期"), p4)], [], some p5, none⟩
  | _ =>
    match jsonQuarterRights content with
    | some (qdv, rdv) => ⟨qdv, [], rdv, none⟩
    | none => labelScanResult content

/-- date_parse.py _extract_event_dates: empty input short-circuits; the
strict format is tried first, then the legacy chain. -/
def _extract_event_dates (content : Str) : ExtractResult :=
  let c := pyStrip content
  if c = [] then ⟨[], [], none, none⟩
  else
    match _extract_event_dates_new_format c with
    | some r => r
    | none => _extract_event_dates_legacy c

/-! ### Cache store (app/storage/events_cache.py)

The on-disk JSON table is modelled as a map from code to entry; the entry's
last_updated string is modelled by its parse outcome: absent or empty,
present but rejected by datetime.fromisoformat, or parsed to a UTC instant
in seconds (a naive timestamp gets tzinfo=UTC, so both parsed forms carry
the same instant). -/

inductive TS where
  | missing
  | unparsable
  | naive (t : Int)
  | aware (t : Int)
deriving DecidableEq

/-- The payload dict written by set_cached_events: exactly the keys
quarter_dates, rights_date, raw_response, error and last_updated. -/
structure CacheEntry where
  quarter_dates : List (Str × Str)
  rights_date : Option Str
  raw_response : Option Str
  error : Option Str
  last_updated : TS
deriving DecidableEq

abbrev Cache := Str → Option CacheEntry

/-- An entry as returned to a caller, with the from_cache stamp. -/
structure StampedEntry where
  entry : CacheEntry
  from_cache : Bool
deriving DecidableEq

def secondsPerDay : Int := 86400

def MAX_CACHE_AGE_DAYS : Int := 183

/-- events_cache.py get_cached_events: normalize the code, look the entry
up, reject a missing or unparsable last_updated, reject an entry older than
max_age_days (timedelta comparison, strict), else return a copy stamped
from_cache=True. -/
def get_cached_events (cache : Cache) (now : Int) (code : Str)
    (max_age_days : Int) : Option StampedEntry :=
  match cache (_normalize_code code) with
  | none => none
  | some entry =>
    match entry.last_updated with
    | TS.missing => none
    | TS.unparsable => none
    | TS.naive t =>
      if now - t > max_age_days * secondsPerDay then none else some ⟨entry, true⟩
    | TS.aware t =>
      if now - t > max_age_days * secondsPerDay then none else some ⟨entry, true⟩

/-- The events dict handed to set_cached_events (and produced by the OpenAI
helpers): the extraction fields plus raw_response and error; quarter_events
and rights_event, when present in the input, are among these fields but are
not copied into the persisted payload. -/
structure AIResult where
  quarter_dates : List (Str × Str)
  quarter_events : List (Str × QuarterEvent)
  rights_date : Option Str
  rights_event : Option RightsEvent
  raw_response : Option Str
  error : Option Str
deriving DecidableEq

/-- events_cache.py set_cached_events: build the five-key payload with a
fresh UTC last_updated, overwrite the entry for the normalized code, and
return the payload stamped from_cache=False together with the new table. -/
def set_cached_events (cache : Cache) (now : Int) (code : Str)
    (events : AIResult) : StampedEntry × Cache :=
  (⟨⟨events.quarter_dates, events.rights_date, events.raw_response,
     events.error, TS.aware now⟩, false⟩,
   fun k =>
     if k = _normalize_code code then
       some ⟨events.quarter_dates, events.rights_date, events.raw_response,
             events.error, TS.aware now⟩
     else cache k)

/-! ### Retrieval policy (app/services/events_openai.py)

The OpenAI client is an oracle: apiAvailable models "the openai package is
importable and OPENAI_API_KEY is set"; single/batch give, per request,
either the transport exception's message or the response (its
model_dump_json and the collected text of its first choice).  Every
chat-completion request performed is appended to the state's call log
together with the codes it was issued for. -/

structure OracleResp where
  dump : Str
  content : Str

inductive Transport where
  | err (msg : Str)
  | ok (r : OracleResp)

structure Oracle where
  apiAvailable : Bool
  single : Str → Transport
  batch : List Str → Transport

structure St where
  cache : Cache
  now : Int
  calls : List (List Str)

def CACHE_ONLY_MODE : Str := str ("cache_only")

def CACHE_FIRST_MODE : Str := str ("cache_first")

def ALWAYS_AI_MODE : Str := str ("always_ai")

def RECENT_CACHE_DAYS : Int := 31

/-- The record type returned by the retrieval policy (the dict shape built
by _finalize_result and the error-record helpers). -/
structure EventRecord where
  quarter_dates : List (Str × Str)
  quarter_events : List (Str × QuarterEvent)
  rights_date : Option Str
  rights_event : Option RightsEvent
  raw_response : Option Str
  error : Option Str
  last_updated : TS
  from_cache : Bool
deriving DecidableEq

/-- events_openai.py _format_openai_missing (the last_updated=None and
from_cache=False keys it also carries are never read on the paths that
consume it as an events dict). -/
def _format_openai_missing : AIResult :=
  ⟨[], [], none, none, none, some (str ("OpenAI API unavailable"))⟩

/-- events_openai.py _finalize_result applied to a cache payload: the
payload has no quarter_events / rights_event keys, so data.get yields None
and the record gets an empty mapping and a null rights event. -/
def _finalize_result (data : CacheEntry) (from_cache : Bool) : EventRecord :=
  ⟨data.quarter_dates, [], data.rights_date, none, data.raw_response,
   data.error, data.last_updated, from_cache⟩

/-- events_openai.py _empty_cache_result. -/
def _empty_cache_result (message : Str) : EventRecord :=
  ⟨[], [], none, none, none, some message, TS.missing, true⟩

/-- events_openai.py get_events_by_openai: one chat-completion request for
one code; a transport error becomes an error field, empty text becomes an
explicit error with the response dump as raw_response, and otherwise the
text is extracted. -/
def get_events_by_openai (o : Oracle) (code : Str) (s : St) : AIResult × St :=
  if !o.apiAvailable then (_format_openai_missing, s)
  else
    let s1 : St := { s with calls := s.calls ++ [[code]] }
    match o.single code with
    | Transport.err m => (⟨[], [], none, none, none, some m⟩, s1)
    | Transport.ok r =>
      let content := pyStrip r.content
      if content = [] then
        (⟨[], [], none, none, some r.dump,
          some (str ("OpenAI response contained no text content."))⟩, s1)
      else
        let ex := _extract_event_dates content
        (⟨ex.quarter_dates, ex.quarter_events, ex.rights_date, ex.rights_event,
          some content, none⟩, s1)

def batchInitRec (code : Str) (dump : Str) : AIResult :=
  ⟨[], [], none, none, some dump,
   some (code ++ str (" のデータを読み取れませんでした。"))⟩

def batchShortMsg (code : Str) : Str := code ++ str (" の値が不足しています。")

def batchParsedRec (dump : Str) (values : List Str) : AIResult :=
  let ex := _extract_event_dates (List.intercalate (str (",")) (values.take 5))
  ⟨ex.quarter_dates, ex.quarter_events, ex.rights_date, ex.rights_event,
   some dump, none⟩

def cleanLines (content : Str) : List Str :=
  ((splitLines content).map pyStrip).filter (fun l => l ≠ [])

/-- One iteration of the response-line loop of get_events_by_openai_batch:
skip a line with no colon or an unknown code; a line with fewer than five
comma fields only overwrites the error message of the code's record; a
well-formed line replaces the record with the extraction of its first five
fields. -/
def batchStep (dump : Str) (d : Str → Option AIResult) (line : Str) :
    Str → Option AIResult :=
  match splitAtFirst (fun c => c = ':') line with
  | none => d
  | some (cp, vp) =>
    let code_part := pyStrip cp
    if (d code_part).isSome then
      let values := cleanParts ',' vp
      if values.length < 5 then
        fun x =>
          if x = code_part then
            (d code_part).map (fun r => { r with error := some (batchShortMsg code_part) })
          else d x
      else
        fun x => if x = code_part then some (batchParsedRec dump values) else d x
    else d

/-- The parsing part of get_events_by_openai_batch for a nonempty response
text: initialize every requested code to an explicit per-code error record,
then fold the cleaned response lines. -/
def batchParse (codes : List Str) (dump : Str) (content : Str) :
    Str → Option AIResult :=
  let init : Str → Option AIResult :=
    fun c => if c ∈ codes then some (batchInitRec c dump) else none
  (cleanLines content).foldl (batchStep dump) init

/-- events_openai.py get_events_by_openai_batch: one chat-completion request
for several codes; total transport failure and empty text give every code
the same error record, otherwise the lines are parsed per code. -/
def get_events_by_openai_batch (o : Oracle) (codes : List Str) (s : St) :
    (Str → Option AIResult) × St :=
  if !o.apiAvailable then
    (fun c => if c ∈ codes then some _format_openai_missing else none, s)
  else
    let s1 : St := { s with calls := s.calls ++ [codes] }
    match o.batch codes with
    | Transport.err m =>
      (fun c => if c ∈ codes then some ⟨[], [], none, none, none, some m⟩ else none, s1)
    | Transport.ok r =>
      let content := pyStrip r.content
      if content = [] then
        (fun c =>
          if c ∈ codes then
            some ⟨[], [], none, none, some r.dump,
                  some (str ("OpenAI response contained no text content."))⟩
          else none, s1)
      else (batchParse codes r.dump content, s1)

/-- events_openai.py _fetch_via_ai: a single code goes through the
non-batched call, several codes through one batched call; every result is
stored in the cache and finalized under its normalized code. -/
def _fetch_via_ai (o : Oracle) (codes : List Str) (s : St) :
    (Str → Option EventRecord) × St :=
  match codes with
  | [] => (fun _ => none, s)
  | [code] =>
    let p := get_events_by_openai o code s
    let q := set_cached_events p.2.cache p.2.now code p.1
    (fun x => if x = _normalize_code code then some (_finalize_result q.1.entry false) else none,
     { p.2 with cache := q.2 })
  | _ =>
    let p := get_events_by_openai_batch o codes s
    codes.foldl (fun acc code =>
      let ai := (p.1 code).getD _format_openai_missing
      let q := set_cached_events acc.2.cache acc.2.now code ai
      (fun x => if x = _normalize_code code then some (_finalize_result q.1.entry false) else acc.1 x,
       { acc.2 with cache := q.2 }))
      ((fun _ => none : Str → Option EventRecord), p.2)

/-- events_openai.py get_events_info: the three-mode single-code policy.
cache_only reads with the long default window; cache_first reads with the
caller's recent window and falls back to one external lookup plus a cache
write; always_ai skips the read. -/
def get_events_info (o : Oracle) (code : Str) (mode : Str) (recent_days : Int)
    (s : St) : EventRecord × St :=
  let normalized := _normalize_code code
  if normalized = [] then (_empty_cache_result (str ("無効な銘柄コードです。")), s)
  else if mode = CACHE_ONLY_MODE then
    match get_cached_events s.cache s.now normalized MAX_CACHE_AGE_DAYS with
    | some c => (_finalize_result c.entry true, s)
    | none => (_empty_cache_result (str ("キャッシュが存在しません。")), s)
  else if mode = CACHE_FIRST_MODE then
    match get_cached_events s.cache s.now normalized recent_days with
    | some c => (_finalize_result c.entry true, s)
    | none =>
      let p := get_events_by_openai o normalized s
      let q := set_cached_events p.2.cache p.2.now normalized p.1
      (_finalize_result q.1.entry false, { p.2 with cache := q.2 })
  else if mode = ALWAYS_AI_MODE then
    let p := get_events_by_openai o normalized s
    let q := set_cached_events p.2.cache p.2.now normalized p.1
    (_finalize_result q.1.entry false, { p.2 with cache := q.2 })
  else (_empty_cache_result (str ("不明な取得モードです。")), s)

/-- The normalize-and-deduplicate loop of fetch_events_info_for_codes
(the seen set always equals the accumulated list). -/
def dedupNormalize (codes : List Str) : List Str :=
  codes.foldl (fun acc code =>
    let norm := _normalize_code code
    if norm = [] then acc
    else if norm ∈ acc then acc
    else acc ++ [norm]) []

/-- events_openai.py fetch_events_info_for_codes: normalize and deduplicate;
cache_only applies the single-code policy per code; cache_first partitions
into cache hits and one batched fetch for the misses; always_ai fetches all
codes in one batch. -/
def fetch_events_info_for_codes (o : Oracle) (codes : List Str) (mode : Str)
    (recent_days : Int) (s : St) : (Str → Option EventRecord) × St :=
  let normalized_codes := dedupNormalize codes
  if normalized_codes = [] then (fun _ => none, s)
  else if mode = CACHE_ONLY_MODE then
    normalized_codes.foldl (fun acc code =>
      let p := get_events_info o code CACHE_ONLY_MODE recent_days acc.2
      (fun x => if x = code then some p.1 else acc.1 x, p.2))
      ((fun _ => none : Str → Option EventRecord), s)
  else if mode = CACHE_FIRST_MODE then
    let pr := normalized_codes.foldl (fun (acc : (Str → Option EventRecord) × List Str) code =>
      match get_cached_events s.cache s.now code recent_days with
      | some c => (fun x => if x = code then some (_finalize_result c.entry true) else acc.1 x, acc.2)
      | none => (acc.1, acc.2 ++ [code]))
      ((fun _ => none : Str → Option EventRecord), ([] : List Str))
    if pr.2 = [] then (pr.1, s)
    else
      let q := _fetch_via_ai o pr.2 s
      (fun x =>
        match q.1 x with
        | some v => some v
        | none => pr.1 x, q.2)
  else if mode = ALWAYS_AI_MODE then _fetch_via_ai o normalized_codes s
  else
    (fun x =>
      if x ∈ normalized_codes then some (_empty_cache_result (str ("不明な取得モードです。")))
      else none, s)

/-! ### Per-code views of the batch-response loop and sample data -/

/-- Whether a response line addresses the given code: it has a colon and the
stripped text before the first colon equals the code. -/
def lineTargets (code : Str) (line : Str) : Bool :=
  match splitAtFirst (fun c => c = ':') line with
  | none => false
  | some (cp, _) => pyStrip cp = code

/-- The cleaned response lines addressed to the given code. -/
def linesFor (code : Str) (content : Str) : List Str :=
  (cleanLines content).filter (lineTargets code)

/-- The effect of one response line on the record of the code it addresses:
fewer than five comma fields overwrite only the error message, a well-formed
line replaces the record with the extraction of its first five fields. -/
def lineStepFor (dump : Str) (code : Str) (r : AIResult) (line : Str) : AIResult :=
  match splitAtFirst (fun c => c = ':') line with
  | none => r
  | some (_, vp) =>
    let values := cleanParts ',' vp
    if values.length < 5 then { r with error := some (batchShortMsg code) }
    else batchParsedRec dump values

/-- A line that does not carry five comma fields after its colon (a line
with no colon counts as short; such a line addresses no code). -/
def lineShort (line : Str) : Bool :=
  match splitAtFirst (fun c => c = ':') line with
  | none => true
  | some (_, vp) => (cleanParts ',' vp).length < 5

/-- The strict-format response of spec §8. -/
def specStrictInput : Str := str ("2025年8月12日（予定｜https://example.com/ir1）,2025年11月11日（前回｜https://example.com/ir2）,2026年2月4日（予定｜https://example.com/ir3）,2026年5月14日（予定｜https://example.com/ir4）,2026年3月27日（予定｜https://example.com/ir5）")

def sampleEntry (t : TS) : CacheEntry := ⟨[], none, none, none, t⟩

def emptyCache : Cache := fun _ => none

/-- A cache table holding one entry for code 7203, written at instant t. -/
def sampleCache (t : TS) : Cache :=
  fun k => if k = str ("7203") then some (sampleEntry t) else none

def freshSt : St := ⟨sampleCache (TS.aware 0), 0, []⟩

def emptySt : St := ⟨emptyCache, 0, []⟩

def trivialOracle : Oracle :=
  ⟨true, fun _ => Transport.ok ⟨str ("dump"), str ("情報未取得")⟩,
   fun _ => Transport.ok ⟨str ("dump"), str ("情報未取得")⟩⟩

/-- A batch response text with a line for 7203 only. -/
def batchContentSample : Str := str ("7203: a,b,c,d,e")

/-! ## Lemmas about stripping -/

theorem dropWhile_idem (p : Char → Bool) (l : Str) :
    List.dropWhile p (List.dropWhile p l) = List.dropWhile p l := by
  induction l with
  | nil => rfl
  | cons a l ih =>
    by_cases h : p a
    · simp [List.dropWhile_cons, h, ih]
    · simp [List.dropWhile_cons, h]

theorem head?_dropWhile (p : Char → Bool) (l : Str) (c : Char)
    (h : (List.dropWhile p l).head? = some c) : p c = false := by
  induction l with
  | nil => simp [List.dropWhile] at h
  | cons a l ih =>
    by_cases ha : p a
    · rw [List.dropWhile_cons, if_pos ha] at h
      exact ih h
    · rw [List.dropWhile_cons, if_neg ha] at h
      simp at h
      rw [← h]
      exact Bool.not_eq_true _ ▸ (by simpa using ha)

theorem getLast?_dropWhile (p : Char → Bool) (l : Str)
    (h : List.dropWhile p l ≠ []) : (List.dropWhile p l).getLast? = l.getLast? := by
  induction l with
  | nil => simp [List.dropWhile] at h
  | cons a l ih =>
    by_cases ha : p a
    · rw [List.dropWhile_cons, if_pos ha] at h ⊢
      have hl : l ≠ [] := by
        intro he
        subst he
        simp [List.dropWhile] at h
      rw [ih h]
      cases l with
      | nil => exact absurd rfl hl
      | cons b m => simp [List.getLast?_cons_cons]
    · rw [List.dropWhile_cons, if_neg ha]

theorem dropWhile_eq_nil_iff_all (p : Char → Bool) (l : Str) :
    List.dropWhile p l = [] ↔ ∀ c ∈ l, p c = true := by
  induction l with
  | nil => simp [List.dropWhile]
  | cons a l ih =>
    by_cases ha : p a
    · simp [List.dropWhile_cons, ha, ih]
    · simp [List.dropWhile_cons, ha]

theorem pyRStrip_head? (l : Str) (h : pyRStrip l ≠ []) :
    (pyRStrip l).head? = l.head? := by
  unfold pyRStrip at h ⊢
  rw [List.head?_reverse]
  have hne : List.dropWhile pyIsSpace l.reverse ≠ [] := by
    intro he
    rw [he] at h
    exact h rfl
  rw [getLast?_dropWhile _ _ hne, List.getLast?_reverse]

theorem pyStrip_head? (l : Str) (h : pyStrip l ≠ []) :
    (pyStrip l).head? = (pyLStrip l).head? := pyRStrip_head? (pyLStrip l) h

theorem pyStrip_head_not_space (l : Str) (c : Char)
    (h : (pyStrip l).head? = some c) : pyIsSpace c = false := by
  have hne : pyStrip l ≠ [] := by
    intro he
    rw [he] at h
    simp at h
  rw [pyStrip_head? l hne] at h
  exact head?_dropWhile pyIsSpace l c h

theorem pyLStrip_of_head (l : Str)
    (h : ∀ c, l.head? = some c → pyIsSpace c = false) : pyLStrip l = l := by
  cases l with
  | nil => rfl
  | cons a m =>
    unfold pyLStrip
    rw [List.dropWhile_cons, if_neg]
    simp [h a rfl]

theorem pyRStrip_idem (l : Str) : pyRStrip (pyRStrip l) = pyRStrip l := by
  unfold pyRStrip
  rw [List.reverse_reverse, dropWhile_idem]

theorem pyStrip_idem (l : Str) : pyStrip (pyStrip l) = pyStrip l := by
  show pyRStrip (pyLStrip (pyRStrip (pyLStrip l))) = pyRStrip (pyLStrip l)
  by_cases h : pyRStrip (pyLStrip l) = []
  · rw [h]
    rfl
  · rw [pyLStrip_of_head _ (fun c hc => by
      rw [pyRStrip_head? _ h] at hc
      exact head?_dropWhile pyIsSpace l c hc)]
    exact pyRStrip_idem (pyLStrip l)

theorem pyStrip_of_not_space (l : Str)
    (h : ∀ c ∈ l, pyIsSpace c = false) : pyStrip l = l := by
  have h1 : pyLStrip l = l := by
    apply pyLStrip_of_head
    intro c hc
    cases l with
    | nil => simp at hc
    | cons a m =>
      simp at hc
      exact hc ▸ h a (by simp)
  show pyRStrip (pyLStrip l) = l
  rw [h1]
  unfold pyRStrip
  have : List.dropWhile pyIsSpace l.reverse = l.reverse := by
    cases hr : l.reverse with
    | nil => rfl
    | cons b m =>
      rw [List.dropWhile_cons, if_neg]
      have hb : b ∈ l := by
        have : b ∈ l.reverse := by rw [hr]; simp
        simpa using this
      simp [h b hb]
  rw [this, List.reverse_reverse]

theorem pyStrip_ne_nil_of_head (l : Str) (c : Char) (hc : l.head? = some c)
    (hns : pyIsSpace c = false) : pyStrip l ≠ [] := by
  have h1 : pyLStrip l = l := by
    apply pyLStrip_of_head
    intro d hd
    rw [hc] at hd
    cases hd
    exact hns
  show pyRStrip (pyLStrip l) ≠ []
  rw [h1]
  unfold pyRStrip
  intro he
  have h2 : List.dropWhile pyIsSpace l.reverse = [] := by
    cases hdw : List.dropWhile pyIsSpace l.reverse with
    | nil => rfl
    | cons b m => rw [hdw] at he; simp at he
  rw [dropWhile_eq_nil_iff_all] at h2
  have hcl : c ∈ l := by
    cases l with
    | nil => simp at hc
    | cons a m => simp at hc; simp [hc]
  have := h2 c (by simpa using hcl)
  rw [hns] at this
  exact Bool.false_ne_true this

/-! ## Lemmas about code normalization -/

theorem pyIsDigitChar_not_space (c : Char) (h : pyIsDigitChar c = true) :
    pyIsSpace c = false := by
  have hv : (48 ≤ c.toNat ∧ c.toNat ≤ 57) ∨ (0xFF10 ≤ c.toNat ∧ c.toNat ≤ 0xFF19) := by
    simpa [pyIsDigitChar, Bool.or_eq_true, Bool.and_eq_true, decide_eq_true_eq] using h
  cases hsp : pyIsSpace c with
  | false => rfl
  | true =>
    exfalso
    have hd := hsp
    simp only [pyIsSpace, Bool.or_eq_true, decide_eq_true_eq] at hd
    rcases hd with ((((((((h1 | h1) | h1) | h1) | h1) | h1) | h1) | h1) | h1) <;>
      subst h1 <;> exact absurd hv (by decide)

theorem pyIsDigitChar_not_sign (c : Char) (h : pyIsDigitChar c = true) :
    (c = '+' || c = '-') = false := by
  have hv : (48 ≤ c.toNat ∧ c.toNat ≤ 57) ∨ (0xFF10 ≤ c.toNat ∧ c.toNat ≤ 0xFF19) := by
    simpa [pyIsDigitChar, Bool.or_eq_true, Bool.and_eq_true, decide_eq_true_eq] using h
  cases hsg : (c = '+' || c = '-') with
  | false => rfl
  | true =>
    exfalso
    have hd : c = '+' ∨ c = '-' := by
      simpa [Bool.or_eq_true, decide_eq_true_eq] using hsg
    rcases hd with h1 | h1 <;> subst h1 <;> exact absurd hv (by decide)

theorem zfill_of_ge (w : Nat) (l : Str) (h : w ≤ l.length) : zfill w l = l := by
  unfold zfill
  rw [if_pos h]

theorem zfill_length (w : Nat) (l : Str) : (zfill w l).length = max w l.length := by
  by_cases h : w ≤ l.length
  · rw [zfill_of_ge w l h]
    omega
  · cases l with
    | nil =>
      have h' : ¬ w = 0 := by simpa using h
      simp [zfill, h']
    | cons c rest =>
      have h' : ¬ w ≤ rest.length + 1 := by simpa using h
      by_cases hs : (c = '+' || c = '-') = true
      · simp [zfill, h', hs]
        omega
      · simp [zfill, h', hs]
        omega

theorem zfill_all_digits (l : Str) (h : l.all pyIsDigitChar = true) :
    (zfill 4 l).all pyIsDigitChar = true := by
  by_cases hw : 4 ≤ l.length
  · rw [zfill_of_ge 4 l hw]
    exact h
  · cases l with
    | nil => decide
    | cons c rest =>
      have hc : pyIsDigitChar c = true := by
        simp only [List.all_cons, Bool.and_eq_true] at h
        exact h.1
      have hsg := pyIsDigitChar_not_sign c hc
      simp only [zfill, if_neg hw, hsg, Bool.false_eq_true, if_false,
        List.all_append, Bool.and_eq_true]
      refine ⟨?_, h⟩
      simp only [List.all_eq_true]
      intro x hx
      rw [List.eq_of_mem_replicate hx]
      decide

theorem normalize_eq_nil (code : Str) (h : pyStrip code = []) :
    _normalize_code code = [] := by
  simp [_normalize_code, h]

theorem normalize_eq_digits (code : Str) (h : pyStrip code ≠ [])
    (h2 : (pyStrip code).all pyIsDigitChar = true) :
    _normalize_code code = zfill 4 (pyStrip code) := by
  simp [_normalize_code, h, h2]

theorem normalize_eq_other (code : Str) (h : pyStrip code ≠ [])
    (h2 : ¬ (pyStrip code).all pyIsDigitChar = true) :
    _normalize_code code = pyStrip code := by
  simp [_normalize_code, h, h2]

theorem normalize_code_idem (code : Str) :
    _normalize_code (_normalize_code code) = _normalize_code code := by
  by_cases h0 : pyStrip code = []
  · rw [normalize_eq_nil code h0]
    exact normalize_eq_nil [] rfl
  · by_cases hd : (pyStrip code).all pyIsDigitChar = true
    · rw [normalize_eq_digits code h0 hd]
      set n := pyStrip code with hn
      have hall : (zfill 4 n).all pyIsDigitChar = true := zfill_all_digits n hd
      have hnotspace : ∀ c ∈ zfill 4 n, pyIsSpace c = false := by
        intro c hc
        exact pyIsDigitChar_not_space c (by
          simp [List.all_eq_true] at hall
          exact hall c hc)
      have hstrip : pyStrip (zfill 4 n) = zfill 4 n := pyStrip_of_not_space _ hnotspace
      have hlen : 4 ≤ (zfill 4 n).length := by
        rw [zfill_length]
        omega
      have hne : pyStrip (zfill 4 n) ≠ [] := by
        rw [hstrip]
        intro he
        rw [he] at hlen
        simp at hlen
      rw [normalize_eq_digits _ hne (by rw [hstrip]; exact hall), hstrip,
        zfill_of_ge 4 _ hlen]
    · rw [normalize_eq_other code h0 hd]
      have hs : pyStrip (pyStrip code) = pyStrip code := pyStrip_idem code
      have h4 := normalize_eq_other (pyStrip code) (by rw [hs]; exact h0)
        (by rw [hs]; exact hd)
      rw [hs] at h4
      exact h4

/-- C10: code normalization is idempotent: stripping is idempotent, and a
zero-padded all-digit code is still all digits, has no surrounding
whitespace and is at least 4 characters long, so a second pass leaves it
unchanged. -/
theorem c10_normalize_idempotent (x : Str) :
    _normalize_code (_normalize_code x) = _normalize_code x :=
  normalize_code_idem x

/-- C8: the spec's first three date examples; the third one exposes a bug:
the source interpolates the separator "." into the regex unescaped, where
it is the wildcard, so "20250812" is matched by the third separator pattern
with groups (2025, 8, 2) — the code returns 2025-08-02 where the claim
(and the compact yyyymmdd pattern further down the chain) expects
2025-08-12.  The last example has no digits-based date and yields null. -/
theorem c8_parse_date_text_values :
    _parse_date_text (str ("2025年8月12日")) = some (str ("2025-08-12")) ∧
    _parse_date_text (str ("2025/8/12")) = some (str ("2025-08-12")) ∧
    _parse_date_text (str ("20250812")) = some (str ("2025-08-02")) ∧
    _parse_date_text (str ("8月上旬")) = none := by
  refine ⟨by decide, by decide, by decide, by decide⟩

/-- C1: the strict-format §8 input, evaluated.  The four quarter events have
the expected kinds (予定 = Scheduled, 前回 = Previous) and ISO dates, and the
rights event has date 2026-03-27 and no kind field; but its source_url is
None, not https://example.com/ir5: _parse_rights_value only accepts the bare
date（url） grammar, so the kind-annotated fifth field that the code's own
prompt demands falls back to plain text and the URL is lost. -/
theorem c1_strict_format_extraction_actual :
    ((_extract_event_dates specStrictInput).quarter_events.map (fun p => p.2.kind) =
      [str ("予定"), str ("前回"), str ("予定"), str ("予定")]) ∧
    ((_extract_event_dates specStrictInput).quarter_events.map (fun p => p.2.date) =
      [str ("2025-08-12"), str ("2025-11-11"), str ("2026-02-04"), str ("2026-05-14")]) ∧
    ((_extract_event_dates specStrictInput).quarter_events.map (fun p => p.1) =
      QUARTER_LABELS) ∧
    ((_extract_event_dates specStrictInput).rights_event.map (fun e => e.date) =
      some (str ("2026-03-27"))) ∧
    ((_extract_event_dates specStrictInput).rights_event.map (fun e => e.source_url) =
      some none) := by
  refine ⟨by decide, by decide, by decide, by decide, by decide⟩

/-! ## The quarter-event invariant (C3) -/

theorem splitAtFirst_ne_nil (p : Char → Bool) (pre rest : Str)
    (h : splitAtFirst p [] = some (pre, rest)) : False := by
  simp [splitAtFirst] at h

theorem splitAtFirst_head (p : Char → Bool) :
    ∀ (l pre rest : Str), splitAtFirst p l = some (pre, rest) → pre ≠ [] →
      pre.head? = l.head? := by
  intro l
  induction l with
  | nil => intro pre rest h _; exact absurd h (by simp [splitAtFirst])
  | cons c m ih =>
    intro pre rest h hne
    by_cases hc : p c
    · simp [splitAtFirst, hc] at h
      exact absurd h.1 hne
    · simp only [splitAtFirst, hc, Bool.false_eq_true, if_false] at h
      cases hsp : splitAtFirst p m with
      | none => rw [hsp] at h; simp at h
      | some q =>
        rw [hsp] at h
        simp only [Option.map_some', Option.some.injEq, Prod.mk.injEq] at h
        rw [← h.1]
        simp

theorem parse_quarter_date_text (v : Str) (e : QuarterEvent)
    (h : _parse_quarter_value v = some e) :
    ∃ pre rest, splitAtFirst isOpenParen (pyStrip v) = some (pre, rest) ∧
      pre ≠ [] ∧ e.date_text = pyStrip pre := by
  simp only [_parse_quarter_value] at h
  split at h
  · exact absurd h (by simp)
  · rename_i pre rest hsp
    split at h
    · exact absurd h (by simp)
    · rename_i hpre
      refine ⟨pre, rest, hsp, hpre, ?_⟩
      split at h
      · exact absurd h (by simp)
      · split at h
        · exact absurd h (by simp)
        · split at h
          · split at h
            · exact absurd h (by simp)
            · split at h
              · simp only [Option.some.injEq] at h
                rw [← h]
              · exact absurd h (by simp)
          · exact absurd h (by simp)

theorem parse_quarter_value_date_text_ne (v : Str) (e : QuarterEvent)
    (h : _parse_quarter_value v = some e) : e.date_text ≠ [] := by
  obtain ⟨pre, rest, hsp, hpre, hdt⟩ := parse_quarter_date_text v e h
  have hsv : pyStrip v ≠ [] := by
    intro he
    rw [he] at hsp
    exact splitAtFirst_ne_nil isOpenParen pre rest hsp
  obtain ⟨c, hc⟩ : ∃ c, (pyStrip v).head? = some c := by
    cases hx : pyStrip v with
    | nil => exact absurd hx hsv
    | cons a m => exact ⟨a, rfl⟩
  have hch : pre.head? = some c := by
    rw [splitAtFirst_head isOpenParen (pyStrip v) pre rest hsp hpre, hc]
  have hns := pyStrip_head_not_space v c hc
  rw [hdt]
  exact pyStrip_ne_nil_of_head pre c hch hns

theorem newformat_quarter_events (content : Str) (r : ExtractResult)
    (h : _extract_event_dates_new_format content = some r) (le : Str × QuarterEvent)
    (hmem : le ∈ r.quarter_events) : ∃ v, _parse_quarter_value v = some le.2 := by
  simp only [_extract_event_dates_new_format] at h
  split at h
  · rename_i p1 p2 p3 p4 p5 t5
    split at h
    · exact absurd h (by simp)
    · rename_i e1 h1
      split at h
      · exact absurd h (by simp)
      · rename_i e2 h2
        split at h
        · exact absurd h (by simp)
        · rename_i e3 h3
          split at h
          · exact absurd h (by simp)
          · rename_i e4 h4
            split at h <;>
            · simp only [Option.some.injEq] at h
              rw [← h] at hmem
              simp only [List.mem_cons, List.not_mem_nil, or_false] at hmem
              rcases hmem with h5 | h5 | h5 | h5 <;>
                (rw [h5]; exact ⟨_, by assumption⟩)
  · exact absurd h (by simp)

theorem legacy_quarter_events_nil (content : Str) :
    (_extract_event_dates_legacy content).quarter_events = [] := by
  unfold _extract_event_dates_legacy
  split
  · rfl
  · split
    · rfl
    · rfl

/-- C3: every QuarterEvent the extractor produces carries a kind and a
source URL (the strict grammar is the only producer and always captures
both), so the invariant reduces to: its date_text is nonempty.  The date
group of the grammar needs at least one character before the first opening
parenthesis of the stripped value, and that prefix starts with a
non-whitespace character, so the stripped date text cannot be empty. -/
theorem c3_quarter_event_invariant (content : Str) (label : Str) (e : QuarterEvent)
    (hmem : (label, e) ∈ (_extract_event_dates content).quarter_events) :
    e.date_text ≠ [] := by
  simp only [_extract_event_dates] at hmem
  split at hmem
  · simp at hmem
  · rename_i hne
    rcases hx : _extract_event_dates_new_format (pyStrip content) with _ | r
    · rw [hx] at hmem
      rw [legacy_quarter_events_nil] at hmem
      simp at hmem
    · rw [hx] at hmem
      obtain ⟨v, hv⟩ := newformat_quarter_events _ r hx (label, e) hmem
      exact parse_quarter_value_date_text_ne v e hv

/-- Witness for C3 at the §8 strict input and its first quarter event. -/
theorem c3_quarter_event_invariant_witness :
    ((str ("第1四半期"),
       (⟨str ("2025-08-12"), str ("2025年8月12日"), str ("予定"),
         str ("https://example.com/ir1"),
         str ("2025年8月12日（予定, https://example.com/ir1）")⟩ : QuarterEvent)) ∈
       (_extract_event_dates specStrictInput).quarter_events) ∧
    (⟨str ("2025-08-12"), str ("2025年8月12日"), str ("予定"),
      str ("https://example.com/ir1"),
      str ("2025年8月12日（予定, https://example.com/ir1）")⟩ : QuarterEvent).date_text ≠ [] :=
  ⟨by decide, c3_quarter_event_invariant specStrictInput (str ("第1四半期")) _ (by decide)⟩

/-! ## Cache round-trip (C2) and expiry semantics (C6) -/

/-- C2: writing an entry and reading it back at the same clock instant with
max_age_days = 0 succeeds (the age comparison is strict, so an age of
exactly zero is not stale) and returns the stored quarter and rights data;
the record is marked as coming from the cache and carries the write
timestamp.  "Immediately" is modelled as the same clock reading: the store
and the read see the same now. -/
theorem c2_cache_roundtrip (cache : Cache) (now : Int) (code : Str)
    (events : AIResult) :
    ∃ r : StampedEntry,
      get_cached_events (set_cached_events cache now code events).2 now code 0 = some r ∧
      r.entry.quarter_dates = events.quarter_dates ∧
      r.entry.rights_date = events.rights_date ∧
      r.entry.raw_response = events.raw_response ∧
      r.entry.error = events.error ∧
      r.entry.last_updated = TS.aware now ∧
      r.from_cache = true := by
  refine ⟨⟨⟨events.quarter_dates, events.rights_date, events.raw_response,
      events.error, TS.aware now⟩, true⟩, ?_, rfl, rfl, rfl, rfl, rfl, rfl⟩
  unfold get_cached_events set_cached_events
  show (match (if _normalize_code code = _normalize_code code then
      some (⟨events.quarter_dates, events.rights_date, events.raw_response,
            events.error, TS.aware now⟩ : CacheEntry)
    else cache (_normalize_code code)) with
    | none => none
    | some entry =>
      match entry.last_updated with
      | TS.missing => none
      | TS.unparsable => none
      | TS.naive t =>
        if now - t > 0 * secondsPerDay then none
        else some (⟨entry, true⟩ : StampedEntry)
      | TS.aware t =>
        if now - t > 0 * secondsPerDay then none
        else some (⟨entry, true⟩ : StampedEntry)) = _
  rw [if_pos rfl]
  show (if now - now > 0 * secondsPerDay then none
    else some (⟨⟨events.quarter_dates, events.rights_date, events.raw_response,
      events.error, TS.aware now⟩, true⟩ : StampedEntry)) = _
  rw [if_neg (by simp)]

/-- C6: get_cached_events returns null exactly when the entry is absent,
its last_updated is missing or unparsable, or its age strictly exceeds
max_age_days (a naive timestamp is treated as the same UTC instant as an
aware one); in particular, with max_age_days = 31 an entry 32 days old is
rejected while one 30 days old is returned. -/
theorem c6_get_cached_events_none_iff :
    (∀ (cache : Cache) (now : Int) (code : Str) (days : Int),
      get_cached_events cache now code days = none ↔
        cache (_normalize_code code) = none ∨
        ∃ e, cache (_normalize_code code) = some e ∧
          (e.last_updated = TS.missing ∨ e.last_updated = TS.unparsable ∨
           ∃ t, (e.last_updated = TS.naive t ∨ e.last_updated = TS.aware t) ∧
                now - t > days * secondsPerDay)) ∧
    get_cached_events (sampleCache (TS.aware 0)) (32 * secondsPerDay) (str ("7203")) 31 = none ∧
    get_cached_events (sampleCache (TS.aware 0)) (30 * secondsPerDay) (str ("7203")) 31 =
      some ⟨sampleEntry (TS.aware 0), true⟩ := by
  refine ⟨?_, by decide, by decide⟩
  intro cache now code days
  unfold get_cached_events
  cases hc : cache (_normalize_code code) with
  | none => simp
  | some e =>
    show (match e.last_updated with
        | TS.missing => none
        | TS.unparsable => none
        | TS.naive t =>
          if now - t > days * secondsPerDay then none
          else some (⟨e, true⟩ : StampedEntry)
        | TS.aware t =>
          if now - t > days * secondsPerDay then none
          else some (⟨e, true⟩ : StampedEntry)) = none ↔ _
    cases hl : e.last_updated with
    | missing =>
      show (none : Option StampedEntry) = none ↔ _
      simp [hl]
    | unparsable =>
      show (none : Option StampedEntry) = none ↔ _
      simp [hl]
    | naive t =>
      show (if now - t > days * secondsPerDay then none
        else some (⟨e, true⟩ : StampedEntry)) = none ↔ _
      by_cases hage : now - t > days * secondsPerDay
      · rw [if_pos hage]
        simp [hl, hage]
      · rw [if_neg hage]
        simp [hl, hage]
    | aware t =>
      show (if now - t > days * secondsPerDay then none
        else some (⟨e, true⟩ : StampedEntry)) = none ↔ _
      by_cases hage : now - t > days * secondsPerDay
      · rw [if_pos hage]
        simp [hl, hage]
      · rw [if_neg hage]
        simp [hl, hage]

/-! ## The cache_only mode (C9) and key persistence (C4) -/

theorem get_events_info_cache_only (o : Oracle) (code : Str) (recent : Int) (s : St) :
    get_events_info o code CACHE_ONLY_MODE recent s =
      (if _normalize_code code = [] then
        (_empty_cache_result (str ("無効な銘柄コードです。")), s)
      else
        match get_cached_events s.cache s.now (_normalize_code code) MAX_CACHE_AGE_DAYS with
        | some c => (_finalize_result c.entry true, s)
        | none => (_empty_cache_result (str ("キャッシュが存在しません。")), s)) := by
  by_cases hn : _normalize_code code = []
  · unfold get_events_info
    rw [if_pos hn, if_pos hn]
  · unfold get_events_info
    rw [if_neg hn, if_neg hn,
      if_pos (show CACHE_ONLY_MODE = CACHE_ONLY_MODE from rfl)]

/-- C9: in cache_only mode the state (cache table and call log) is returned
unchanged — no external request and no cache write happen — and the record
is the finalized cached entry (marked from_cache) when a fresh-enough entry
exists, the explicit no-cache error record when it does not, and the
invalid-code error record when the code normalizes to the empty string. -/
theorem c9_cache_only_read_only (o : Oracle) (s : St) (code : Str) (recent : Int) :
    (get_events_info o code CACHE_ONLY_MODE recent s).2 = s ∧
    (_normalize_code code = [] →
      (get_events_info o code CACHE_ONLY_MODE recent s).1 =
        _empty_cache_result (str ("無効な銘柄コードです。"))) ∧
    (∀ c, _normalize_code code ≠ [] →
      get_cached_events s.cache s.now (_normalize_code code) MAX_CACHE_AGE_DAYS = some c →
      (get_events_info o code CACHE_ONLY_MODE recent s).1 = _finalize_result c.entry true) ∧
    (_normalize_code code ≠ [] →
      get_cached_events s.cache s.now (_normalize_code code) MAX_CACHE_AGE_DAYS = none →
      (get_events_info o code CACHE_ONLY_MODE recent s).1 =
        _empty_cache_result (str ("キャッシュが存在しません。"))) := by
  rw [get_events_info_cache_only]
  by_cases hn : _normalize_code code = []
  · rw [if_pos hn]
    exact ⟨rfl, fun _ => rfl, fun c hne _ => absurd hn hne, fun hne _ => absurd hn hne⟩
  · rw [if_neg hn]
    cases hg : get_cached_events s.cache s.now (_normalize_code code) MAX_CACHE_AGE_DAYS with
    | some c =>
      refine ⟨rfl, fun h => absurd h hn, ?_, ?_⟩
      · intro c2 _ hc2
        injection hc2 with hc2
        rw [← hc2]
      · intro _ hnone
        exact absurd hnone (by simp)
    | none =>
      refine ⟨rfl, fun h => absurd h hn, ?_, ?_⟩
      · intro c2 _ hc2
        exact absurd hc2 (by simp)
      · intro _ _
        rfl

/-- Witness for C9 with a cached entry for 7203. -/
theorem c9_cache_only_read_only_witness :
    ((_normalize_code (str ("7203")) : Str) ≠ []) ∧
    (get_cached_events freshSt.cache freshSt.now (_normalize_code (str ("7203")))
      MAX_CACHE_AGE_DAYS = some ⟨sampleEntry (TS.aware 0), true⟩) ∧
    ((get_events_info trivialOracle (str ("7203")) CACHE_ONLY_MODE 31 freshSt).1 =
      _finalize_result (sampleEntry (TS.aware 0)) true) :=
  ⟨by decide, by decide,
   (c9_cache_only_read_only trivialOracle freshSt (str ("7203")) 31).2.2.1
     ⟨sampleEntry (TS.aware 0), true⟩ (by decide) (by decide)⟩

/-- C4: the cache write persists exactly the five payload keys (quarter
dates, rights date, raw response, error, fresh timestamp) — quarter_events
and rights_event from the input are discarded — and every record returned
by get_events_info after a fresh external lookup (always_ai, or cache_first
on a cache miss) therefore has an empty quarter_events mapping and a null
rights_event, whatever the extraction produced. -/
theorem c4_persist_discards_events :
    (∀ (cache : Cache) (now : Int) (code : Str) (events : AIResult),
      (set_cached_events cache now code events).2 (_normalize_code code) =
        some ⟨events.quarter_dates, events.rights_date, events.raw_response,
              events.error, TS.aware now⟩ ∧
      (set_cached_events cache now code events).1.entry =
        ⟨events.quarter_dates, events.rights_date, events.raw_response,
         events.error, TS.aware now⟩) ∧
    (∀ (o : Oracle) (s : St) (code : Str) (recent : Int),
      (get_events_info o code ALWAYS_AI_MODE recent s).1.quarter_events = [] ∧
      (get_events_info o code ALWAYS_AI_MODE recent s).1.rights_event = none) ∧
    (∀ (o : Oracle) (s : St) (code : Str) (recent : Int),
      get_cached_events s.cache s.now (_normalize_code code) recent = none →
      (get_events_info o code CACHE_FIRST_MODE recent s).1.quarter_events = [] ∧
      (get_events_info o code CACHE_FIRST_MODE recent s).1.rights_event = none) := by
  refine ⟨?_, ?_, ?_⟩
  · intro cache now code events
    constructor
    · simp [set_cached_events]
    · rfl
  · intro o s code recent
    by_cases hn : _normalize_code code = []
    · unfold get_events_info
      rw [if_pos hn]
      exact ⟨rfl, rfl⟩
    · unfold get_events_info
      rw [if_neg hn,
        if_neg (show ¬ (ALWAYS_AI_MODE = CACHE_ONLY_MODE) by decide),
        if_neg (show ¬ (ALWAYS_AI_MODE = CACHE_FIRST_MODE) by decide),
        if_pos (show ALWAYS_AI_MODE = ALWAYS_AI_MODE from rfl)]
      exact ⟨rfl, rfl⟩
  · intro o s code recent hmiss
    by_cases hn : _normalize_code code = []
    · unfold get_events_info
      rw [if_pos hn]
      exact ⟨rfl, rfl⟩
    · unfold get_events_info
      rw [if_neg hn,
        if_neg (show ¬ (CACHE_FIRST_MODE = CACHE_ONLY_MODE) by decide),
        if_pos (show CACHE_FIRST_MODE = CACHE_FIRST_MODE from rfl), hmiss]
      exact ⟨rfl, rfl⟩

/-- Witness for C4 at an empty cache and an oracle whose response carries
nonempty extraction data. -/
theorem c4_persist_discards_events_witness :
    (get_cached_events emptySt.cache emptySt.now (_normalize_code (str ("7203"))) 31 = none) ∧
    ((get_events_info trivialOracle (str ("7203")) CACHE_FIRST_MODE 31 emptySt).1.quarter_events = [] ∧
     (get_events_info trivialOracle (str ("7203")) CACHE_FIRST_MODE 31 emptySt).1.rights_event = none) :=
  ⟨by decide,
   c4_persist_discards_events.2.2 trivialOracle emptySt (str ("7203")) 31 (by decide)⟩

/-! ## Per-code batch parsing (C7) -/

theorem batchStep_lookup (dump : Str) (c : Str) (line : Str)
    (d : Str → Option AIResult) (r0 : AIResult) (hd : d c = some r0) :
    (batchStep dump d line) c =
      (if lineTargets c line then some (lineStepFor dump c r0 line) else some r0) := by
  unfold batchStep lineTargets lineStepFor
  split
  · rename_i x heq
    simp [heq, hd]
  · rename_i x cp vp heq
    by_cases hcp : pyStrip cp = c
    · subst hcp
      by_cases hlen : (cleanParts ',' vp).length < 5
      · simp [heq, hd, hlen]
      · simp [heq, hd, hlen]
    · have hcp2 : ¬ (c = pyStrip cp) := fun h => hcp h.symm
      by_cases hsome : (d (pyStrip cp)).isSome
      · by_cases hlen : (cleanParts ',' vp).length < 5
        · simp [heq, hd, hcp, hcp2, hsome, hlen]
        · simp [heq, hd, hcp, hcp2, hsome, hlen]
      · simp [heq, hd, hcp, hsome]

theorem batchLoop_lookup (dump : Str) (c : Str) :
    ∀ (lines : List Str) (d : Str → Option AIResult) (r0 : AIResult),
      d c = some r0 →
      (lines.foldl (batchStep dump) d) c =
        some ((lines.filter (lineTargets c)).foldl (lineStepFor dump c) r0) := by
  intro lines
  induction lines with
  | nil => intro d r0 hd; simpa using hd
  | cons line rest ih =>
    intro d r0 hd
    rw [List.foldl_cons]
    by_cases ht : lineTargets c line
    · have hstep : (batchStep dump d line) c = some (lineStepFor dump c r0 line) := by
        rw [batchStep_lookup dump c line d r0 hd, if_pos ht]
      rw [ih (batchStep dump d line) (lineStepFor dump c r0 line) hstep,
        List.filter_cons_of_pos (by simpa using ht), List.foldl_cons]
    · have hstep : (batchStep dump d line) c = some r0 := by
        rw [batchStep_lookup dump c line d r0 hd, if_neg ht]
      rw [ih (batchStep dump d line) r0 hstep,
        List.filter_cons_of_neg (by simpa using ht)]

theorem lineStepFor_short_error (dump : Str) (c : Str) (line : Str) (r : AIResult)
    (hshort : lineShort line = true) (herr : r.error.isSome = true) :
    (lineStepFor dump c r line).error.isSome = true := by
  unfold lineStepFor
  unfold lineShort at hshort
  cases hsp : splitAtFirst (fun ch => ch = ':') line with
  | none => exact herr
  | some p =>
    obtain ⟨cp, vp⟩ := p
    rw [hsp] at hshort
    simp only [decide_eq_true_eq] at hshort
    simp [hshort]

theorem foldl_short_error (dump : Str) (c : Str) :
    ∀ (lines : List Str) (r0 : AIResult),
      (∀ l ∈ lines, lineShort l = true) → r0.error.isSome = true →
      ((lines.foldl (lineStepFor dump c) r0).error.isSome = true) := by
  intro lines
  induction lines with
  | nil => intro r0 _ h0; simpa using h0
  | cons line rest ih =>
    intro r0 hall h0
    rw [List.foldl_cons]
    exact ih (lineStepFor dump c r0 line)
      (fun l hl => hall l (by simp [hl]))
      (lineStepFor_short_error dump c line r0 (hall line (by simp)) h0)

/-- C7: in the batch line parser, the record returned for a requested code
is fully determined by the response lines addressed to that code, folded
over the explicit initial per-code error record — so a malformed or missing
line for one code cannot affect any other code's record, and the mapping
always carries some record for every requested code.  Moreover, if every
line addressed to the code is short (fewer than five comma fields) — in
particular if there is no line for it at all, or only colon-less lines —
the code's record carries an explicit error message. -/
theorem c7_batch_per_code_errors (codes : List Str) (dump content : Str)
    (c : Str) (hc : c ∈ codes) :
    (batchParse codes dump content c =
      some ((linesFor c content).foldl (lineStepFor dump c) (batchInitRec c dump))) ∧
    ((∀ l ∈ linesFor c content, lineShort l = true) →
      ∃ r, batchParse codes dump content c = some r ∧ r.error.isSome = true) := by
  have hmain : batchParse codes dump content c =
      some ((linesFor c content).foldl (lineStepFor dump c) (batchInitRec c dump)) := by
    unfold batchParse linesFor
    exact batchLoop_lookup dump c (cleanLines content)
      (fun x => if x ∈ codes then some (batchInitRec x dump) else none)
      (batchInitRec c dump) (by simp [hc])
  refine ⟨hmain, fun hall => ⟨_, hmain, ?_⟩⟩
  exact foldl_short_error dump c (linesFor c content) (batchInitRec c dump) hall rfl

/-- Witness for C7: a batch over 7203 and 6758 whose response has a line
for 7203 only; 6758 keeps an explicit error record. -/
theorem c7_batch_per_code_errors_witness :
    ((str ("6758") : Str) ∈ [str ("7203"), str ("6758")]) ∧
    (∀ l ∈ linesFor (str ("6758")) batchContentSample, lineShort l = true) ∧
    (∃ r, batchParse [str ("7203"), str ("6758")] (str ("dump")) batchContentSample
        (str ("6758")) = some r ∧ r.error.isSome = true) :=
  ⟨by decide, by decide,
   (c7_batch_per_code_errors [str ("7203"), str ("6758")] (str ("dump"))
     batchContentSample (str ("6758")) (by decide)).2 (by decide)⟩

/-! ## The cache-first batch policy (C5) -/

theorem get_events_by_openai_state (o : Oracle) (code : Str) (s : St)
    (h : o.apiAvailable = true) :
    (get_events_by_openai o code s).2 = { s with calls := s.calls ++ [[code]] } := by
  simp only [get_events_by_openai, h, Bool.not_true, Bool.false_eq_true, if_false]
  cases ho : o.single code with
  | err m => rfl
  | ok r =>
    by_cases hc : pyStrip r.content = []
    · simp [hc]
    · simp [hc]

theorem fetch_via_ai_single (o : Oracle) (code : Str) (s : St)
    (h : o.apiAvailable = true) :
    (_fetch_via_ai o [code] s).2.calls = s.calls ++ [[code]] ∧
    ((_fetch_via_ai o [code] s).1 (_normalize_code code)).isSome = true ∧
    (∀ x, x ≠ _normalize_code code → (_fetch_via_ai o [code] s).1 x = none) := by
  simp only [_fetch_via_ai]
  refine ⟨?_, ?_, ?_⟩
  · show ({ (get_events_by_openai o code s).2 with
      cache := (set_cached_events (get_events_by_openai o code s).2.cache
        (get_events_by_openai o code s).2.now code
        (get_events_by_openai o code s).1).2 }).calls = s.calls ++ [[code]]
    rw [get_events_by_openai_state o code s h]
  · simp
  · intro x hx
    simp [hx]

theorem dedupNormalize_pair (c1 c2 : Str) (h1 : _normalize_code c1 = c1)
    (h2 : _normalize_code c2 = c2) (hn1 : c1 ≠ []) (hn2 : c2 ≠ []) (hne : c1 ≠ c2) :
    dedupNormalize [c1, c2] = [c1, c2] := by
  have hne2 : ¬ (c2 = c1) := fun h => hne h.symm
  simp [dedupNormalize, h1, h2, hn1, hn2, hne2]

/-- C5: fetch over two codes in cache_first mode, where the first is
fresh-cached and the second is not: the partition loop returns the cached
record for the first immediately, the miss list is exactly the second code,
and the single-element miss list goes through the non-batched single-code
request — so exactly one external call is logged and it carries only the
second code; the merged mapping holds a record for both codes. -/
theorem c5_cache_first_batches_only_miss (o : Oracle) (s : St) (recent : Int)
    (c1 c2 : Str) (e1 : StampedEntry)
    (hapi : o.apiAvailable = true)
    (h1 : _normalize_code c1 = c1) (h2 : _normalize_code c2 = c2)
    (hn1 : c1 ≠ []) (hn2 : c2 ≠ []) (hne : c1 ≠ c2)
    (hfresh : get_cached_events s.cache s.now c1 recent = some e1)
    (hmiss : get_cached_events s.cache s.now c2 recent = none) :
    (fetch_events_info_for_codes o [c1, c2] CACHE_FIRST_MODE recent s).2.calls =
      s.calls ++ [[c2]] ∧
    ((fetch_events_info_for_codes o [c1, c2] CACHE_FIRST_MODE recent s).1 c1).isSome = true ∧
    ((fetch_events_info_for_codes o [c1, c2] CACHE_FIRST_MODE recent s).1 c2).isSome = true := by
  obtain ⟨hcalls, hsome2, hnone⟩ := fetch_via_ai_single o c2 s hapi
  rw [h2] at hsome2 hnone
  unfold fetch_events_info_for_codes
  rw [dedupNormalize_pair c1 c2 h1 h2 hn1 hn2 hne]
  rw [if_neg (by simp : ¬ ([c1, c2] : List Str) = []),
    if_neg (show ¬ (CACHE_FIRST_MODE = CACHE_ONLY_MODE) by decide),
    if_pos (show CACHE_FIRST_MODE = CACHE_FIRST_MODE from rfl)]
  simp only [List.foldl_cons, List.foldl_nil, hfresh, hmiss]
  refine ⟨?_, ?_, ?_⟩
  · simp [hcalls]
  · have hq : (_fetch_via_ai o [c2] s).1 c1 = none := hnone c1 hne
    simp [hq]
  · cases hv : (_fetch_via_ai o [c2] s).1 c2 with
    | none => rw [hv] at hsome2; simp at hsome2
    | some v => simp [hv]

/-- Witness for C5: 7203 fresh-cached, 6758 absent. -/
theorem c5_cache_first_batches_only_miss_witness :
    (trivialOracle.apiAvailable = true) ∧
    (get_cached_events freshSt.cache freshSt.now (str ("7203")) 31 =
      some ⟨sampleEntry (TS.aware 0), true⟩) ∧
    (get_cached_events freshSt.cache freshSt.now (str ("6758")) 31 = none) ∧
    ((fetch_events_info_for_codes trivialOracle [str ("7203"), str ("6758")]
        CACHE_FIRST_MODE 31 freshSt).2.calls = freshSt.calls ++ [[str ("6758")]] ∧
     ((fetch_events_info_for_codes trivialOracle [str ("7203"), str ("6758")]
        CACHE_FIRST_MODE 31 freshSt).1 (str ("7203"))).isSome = true ∧
     ((fetch_events_info_for_codes trivialOracle [str ("7203"), str ("6758")]
        CACHE_FIRST_MODE 31 freshSt).1 (str ("6758"))).isSome = true) :=
  ⟨by decide, by decide, by decide,
   c5_cache_first_batches_only_miss trivialOracle freshSt 31 (str ("7203")) (str ("6758"))
     ⟨sampleEntry (TS.aware 0), true⟩ (by decide) (by decide) (by decide) (by decide)
     (by decide) (by decide) (by decide) (by decide)⟩
